import Mathlib

/-!
Shallow embedding of the WINC1500 firmware-dump deconstructor
(`extract_firmware.py` and `extract_final.py`) and proofs about it.

Bytes are modelled as `List Nat` (each element a byte value), Python's
`bytes.find` as a bounded literal substring search, the mutable
`self.regions` list as a pure value threaded through the phases, and
fallible operations (Python exceptions, `exit(1)`) as `Option` results.
-/

namespace Winc

/-- Kind tag stored under the `'type'` key of a region dict in the source:
`'firmware'` or `'certificate'`; absence of the key is `none`. -/
inductive RegionType where
  | firmware
  | certificate
deriving DecidableEq

/-- Region record mirroring the Python dicts appended to `self.regions`:
`name` and `offset` always present; `size`, `'type'` (here `rtype`),
`schema` and `'prefix'` (here `pfx`) are optional keys. -/
structure Region where
  name : String
  offset : Nat
  size : Option Nat := none
  rtype : Option RegionType := none
  schema : Option Nat := none
  pfx : Option String := none
deriving DecidableEq

/-- Python slice `l[a:b]` for non-negative bounds: clamps to the list
length and yields `[]` when `a ≥ b`. -/
def pySlice (l : List Nat) (a b : Nat) : List Nat :=
  (l.take b).drop a

/-- Python `bytes.rstrip(b'\xff')`: remove trailing `0xFF` bytes. -/
def rstripFF (l : List Nat) : List Nat :=
  (l.reverse.dropWhile (fun b => b == 255)).reverse

/-- Whether the pattern `pat` occurs in `fw` starting at index `i`. -/
def matchAt (fw pat : List Nat) (i : Nat) : Bool :=
  decide ((fw.drop i).take pat.length = pat)

/-- Python `fw.find(pat, start, stop)`: smallest `i ≥ start` such that the
whole match fits inside `[start, min stop (length fw))`; `none` models the
`-1` result. -/
def bytesFind (fw pat : List Nat) (start stop : Nat) : Option Nat :=
  let stop' := min stop fw.length
  (List.range (stop' + 1)).find? fun i =>
    decide (start ≤ i) && decide (i + pat.length ≤ stop') && matchAt fw pat i

theorem bytesFind_some {fw pat : List Nat} {start stop i : Nat}
    (h : bytesFind fw pat start stop = some i) :
    start ≤ i ∧ i + pat.length ≤ min stop fw.length ∧ matchAt fw pat i = true := by
  unfold bytesFind at h
  have h2 := List.find?_some h
  simp only [Bool.and_eq_true, decide_eq_true_eq] at h2
  exact ⟨h2.1.1, h2.1.2, h2.2⟩

/-- The `for i in range(occurrence + 1): offset = fw.find(magic, offset + 1)`
loop of `_find_all_regions`, returning the `occ`-th (0-indexed) occurrence of
`pat` when it exists; each successive search restarts one byte past the
previous hit. -/
def findOcc (fw pat : List Nat) : Nat → Nat → Option Nat
  | occ, start =>
    match bytesFind fw pat start fw.length, occ with
    | none, _ => none
    | some off, 0 => some off
    | some off, m + 1 => findOcc fw pat m (off + 1)

/-- Magic signature `b'NMIS'`. -/
def nmis : List Nat := [0x4E, 0x4D, 0x49, 0x53]

/-- Magic signature `b'NMID'`. -/
def nmid : List Nat := [0x4E, 0x4D, 0x49, 0x44]

/-- Magic signature `b'FTMA'`. -/
def ftma : List Nat := [0x46, 0x54, 0x4D, 0x41]

/-- DER certificate header signature `b'\x30\x82'`. -/
def derHeader : List Nat := [0x30, 0x82]

/-- The `boot firmware` region appended unconditionally at offset 0. -/
def bootRegion : Region :=
  { name := "boot firmware", offset := 0x0,
    rtype := some RegionType.firmware, schema := some 1, pfx := some "NMIS" }

/-- The `control sector` fixed region at `0x1000`. -/
def controlRegion : Region := { name := "control sector", offset := 0x1000 }

/-- The `backup sector` fixed region at `0x2000`. -/
def backupRegion : Region := { name := "backup sector", offset := 0x2000 }

/-- The `pll table` fixed region at `0x3000`. -/
def pllRegion : Region := { name := "pll table", offset := 0x3000 }

/-- The `gain table` fixed region at `0x3400`. -/
def gainRegion : Region := { name := "gain table", offset := 0x3400 }

/-- The five regions appended to `self.regions` before any scanning. -/
def fixedRegions : List Region :=
  [bootRegion, controlRegion, backupRegion, pllRegion, gainRegion]

/-- Magic-number scan of `_find_all_regions`: the `downloader firmware`
uses the second `NMIS` occurrence (occurrence = 1), `wifi firmware` the
first `NMID`, `ate firmware` the first `FTMA`; a missing magic simply
contributes no region. Also returns the wifi-firmware offset (when found),
which later bounds the certificate scan. -/
def firmwareRegions (fw : List Nat) : List Region × Option Nat :=
  let dl := findOcc fw nmis 1 0
  let wifi := findOcc fw nmid 0 0
  let ate := findOcc fw ftma 0 0
  ((dl.map fun o =>
      { name := "downloader firmware", offset := o,
        rtype := some RegionType.firmware, schema := some 1, pfx := some "NMIS" }).toList ++
   (wifi.map fun o =>
      { name := "wifi firmware", offset := o,
        rtype := some RegionType.firmware, schema := some 2, pfx := some "NMID" }).toList ++
   (ate.map fun o =>
      { name := "ate firmware", offset := o,
        rtype := some RegionType.firmware, schema := some 4, pfx := some "FTMA" }).toList,
   wifi)

/-- Python `f'certificate_{hex(offset)}'`. -/
def certRegionName (off : Nat) : String :=
  "certificate_0x" ++ String.mk (Nat.toDigits 16 off)

/-- The `while offset < end_search` certificate scan of `_find_all_regions`:
find the next `30 82` header, read the following two bytes as a big-endian
length, record a region of size `4 + length`, and continue searching from
past its end. `none` models the `struct.error` crash when fewer than two
length bytes remain (`f + 4 > length fw`). The fuel argument only bounds
the iteration count for structural recursion; the cursor strictly
increases by at least 4 each step, so fuel `length fw + 1` never runs out. -/
def certScan (fw : List Nat) (endSearch : Nat) : Nat → Nat → Option (List Region)
  | _, 0 => none
  | off, fuel + 1 =>
    if off < endSearch then
      match bytesFind fw derHeader off endSearch with
      | none => some []
      | some f =>
        if f + 4 ≤ fw.length then
          let len := 256 * fw.getD (f + 2) 0 + fw.getD (f + 3) 0
          match certScan fw endSearch (f + (4 + len)) fuel with
          | none => none
          | some rest =>
            some ({ name := certRegionName f, offset := f, size := some (4 + len),
                    rtype := some RegionType.certificate } :: rest)
        else none
    else some []

/-- The ordering used by `self.regions.sort(key=lambda x: x['offset'])`. -/
def regionLE (a b : Region) : Prop := a.offset ≤ b.offset

instance : DecidableRel regionLE := fun a b => Nat.decLe a.offset b.offset

instance : IsTotal Region regionLE := ⟨fun a b => Nat.le_total a.offset b.offset⟩

instance : IsTrans Region regionLE := ⟨fun _ _ _ h h' => Nat.le_trans h h'⟩

/-- `_find_all_regions`: fixed regions, then magic-located firmware
regions, then certificates (searched only before the wifi firmware when it
exists), finally stably sorted by offset — `List.insertionSort` is stable,
like Python's `list.sort`. `none` models the certificate-scan crash. -/
def findAllRegions (fw : List Nat) : Option (List Region) :=
  let p := firmwareRegions fw
  let endSearch := p.2.getD fw.length
  match certScan fw endSearch 0 (fw.length + 1) with
  | none => none
  | some certs =>
      some (List.insertionSort regionLE (fixedRegions ++ p.1 ++ certs))

/-- Extent resolution of `_calculate_sizes_and_extract`: a region with an
explicit `size` ends at `offset + size`; otherwise it ends at the next
region's offset, or at end-of-image for the last region. Produces
`(region, start, end)` triples in list order. -/
def extents (imgLen : Nat) : List Region → List (Region × Nat × Nat)
  | [] => []
  | r :: rest =>
    let e :=
      match r.size with
      | some s => r.offset + s
      | none =>
        match rest.head? with
        | some r2 => r2.offset
        | none => imgLen
    (r, r.offset, e) :: extents imgLen rest

/-- Payload canonicalization of `_calculate_sizes_and_extract`: firmware
regions with a schema drop an 8-byte (schema 1) or 4-byte (schema 2)
header; every region — whatever its kind — then has trailing `0xFF` bytes
stripped. -/
def transform (r : Region) (data : List Nat) : List Nat :=
  let d :=
    if r.rtype = some RegionType.firmware ∧ r.schema.isSome then
      match r.schema with
      | some 1 => data.drop 8
      | some 2 => data.drop 4
      | _ => data
    else data
  rstripFF d

/-- Python `name.replace(' ', '_')`: spaces become underscores. -/
def underscoreName (s : String) : String :=
  String.mk (s.data.map fun c => if c = ' ' then '_' else c)

/-- Output file name: underscored region name plus `.der` for
certificates and `.bin` for everything else. -/
def fileName (r : Region) : String :=
  underscoreName r.name ++
    (if r.rtype = some RegionType.certificate then ".der" else ".bin")

/-- Outcome of `_verify_part` for one region. -/
inductive VerifyResult where
  | ok
  | mismatch
  | skipped
deriving DecidableEq

/-- Core of `_verify_part` on the canonical payload `data` and the
reference bytes (`none` when no source file exists, which only warns and
returns). For schema-1 firmware the reference loses its own 4 leading
bytes; for schema-2 firmware the payload's first byte is decremented by 4
modulo 256 before comparison (`(data[0] - 4) & 0xFF`), crashing
(`IndexError`, modelled `none`) on an empty payload. Everything else is
compared byte-for-byte. -/
def verifyPart (r : Region) (data : List Nat) (source : Option (List Nat)) :
    Option VerifyResult :=
  match source with
  | none => some VerifyResult.skipped
  | some sd =>
    let sd' := if r.rtype = some RegionType.firmware ∧ r.schema = some 1
               then sd.drop 4 else sd
    let d? : Option (List Nat) :=
      if r.rtype = some RegionType.firmware ∧ r.schema = some 2 then
        match data with
        | [] => none
        | b :: rest => some ((b + 252) % 256 :: rest)
      else some data
    match d? with
    | none => none
    | some d =>
      some (if d = sd' then VerifyResult.ok else VerifyResult.mismatch)

/-- Extraction loop of `_calculate_sizes_and_extract` over the resolved
extents: each region's slice is transformed and its output file recorded,
then verified. A verification mismatch runs `exit(1)` — the already
written files are kept but no later region is processed (flag `true`); a
verifier crash is `none`. -/
def runExtract (fw : List Nat) (src : String → Option (List Nat)) :
    List (Region × Nat × Nat) → Option (List (String × List Nat) × Bool)
  | [] => some ([], false)
  | (r, s, e) :: rest =>
    let out := transform r (pySlice fw s e)
    match verifyPart r out (src r.name) with
    | none => none
    | some VerifyResult.mismatch => some ([(fileName r, out)], true)
    | some _ =>
      match runExtract fw src rest with
      | none => none
      | some (os, halted) => some ((fileName r, out) :: os, halted)

/-- The whole `deconstruct` pipeline on a loaded image: locate the
regions, then size, transform, write and verify them in offset order.
`src` stands for the optional source-parts directory, keyed by region
name. The returned flag records whether a verification mismatch aborted
the run. -/
def deconstruct (fw : List Nat) (src : String → Option (List Nat)) :
    Option (List (String × List Nat) × Bool) :=
  match findAllRegions fw with
  | none => none
  | some rs => runExtract fw src (extents fw.length rs)

/-- The `firmware_parts` table of `extract_final.py`. -/
def finalParts : List (String × List Nat) :=
  [("boot_firmware.bin", nmis), ("wifi_firmware.bin", nmid),
   ("burst_tx_firmware.bin", ftma)]

/-- One iteration of the `extract_final.py` loop: skip the part when its
source file is missing or its magic is absent from the dump; otherwise
reconstruct the part from the source header and the dump bytes after the
magic, and record whether it verified against the full source file. -/
def processPart (fw : List Nat) (src : String → Option (List Nat))
    (p : String × List Nat) : Option (String × List Nat × Bool) :=
  match src p.1 with
  | none => none
  | some sd =>
    match bytesFind fw p.2 0 fw.length with
    | none => none
    | some m =>
      let part := sd.take 4 ++ pySlice fw (m + 8) (m + 8 + (sd.drop 4).length)
      some (p.1, part, part = sd)

/-- `extract_firmware` of `extract_final.py`: process the three parts in
order; a skip or a failed verification never stops the loop. -/
def extractFinal (fw : List Nat) (src : String → Option (List Nat)) :
    List (String × List Nat × Bool) :=
  finalParts.filterMap (processPart fw src)

/-- Modelled from the spec: the HttpEntry table locator is absent from the
sources under `src/`; this follows §4.2 of the spec literally. A parsed
entry: its name bytes (null-terminated within the fixed-width name
field), the window position of its content, and the content length. -/
structure HttpEntry where
  name : List Nat
  contentOff : Nat
  size : Nat
deriving DecidableEq

/-- Modelled from the spec: a 4-byte little-endian size field at `pos`. -/
def readLE32 (win : List Nat) (pos : Nat) : Nat :=
  win.getD pos 0 + 256 * win.getD (pos + 1) 0 +
    65536 * win.getD (pos + 2) 0 + 16777216 * win.getD (pos + 3) 0

/-- Modelled from the spec: skip zero-fill padding bytes from `pos`. -/
def skipZeros (win : List Nat) (pos : Nat) : Nat :=
  pos + ((win.drop pos).takeWhile (fun b => b == 0)).length

/-- Modelled from the spec: within the window, repeatedly skip zero-fill
padding, read a fixed-width (`nameW`-byte) null-terminated name field,
then a 4-byte little-endian size field, then that many content bytes; one
entry per parse; stop when no valid name remains or parsing would overrun
the window. The fuel bounds the recursion; the position strictly
increases by at least 4 per entry, so fuel `length win + 1` never runs
out. -/
def parseHttpWindow (nameW : Nat) (win : List Nat) : Nat → Nat → List HttpEntry
  | _, 0 => []
  | pos, fuel + 1 =>
    let p := skipZeros win pos
    if p + nameW + 4 ≤ win.length then
      let nm := (pySlice win p (p + nameW)).takeWhile (fun b => decide (b ≠ 0))
      if nm.length < nameW ∧ nm ≠ [] then
        let sz := readLE32 win (p + nameW)
        if p + nameW + 4 + sz ≤ win.length then
          ⟨nm, p + nameW + 4, sz⟩ ::
            parseHttpWindow nameW win (p + nameW + 4 + sz) fuel
        else []
      else []
    else []

/-- Modelled from the spec: entry point of the HttpEntry locator on a
window. -/
def httpEntries (nameW : Nat) (win : List Nat) : List HttpEntry :=
  parseHttpWindow nameW win 0 (win.length + 1)

/-! ### Helper lemmas -/

theorem dropWhile_self_idem (p : Nat → Bool) (l : List Nat) :
    List.dropWhile p (List.dropWhile p l) = List.dropWhile p l := by
  induction l with
  | nil => simp
  | cons a l ih =>
    by_cases h : p a = true
    · simp [List.dropWhile_cons, h, ih]
    · simp [List.dropWhile_cons, h]

theorem rstripFF_idem (l : List Nat) : rstripFF (rstripFF l) = rstripFF l := by
  unfold rstripFF
  rw [List.reverse_reverse, dropWhile_self_idem]

theorem dropWhileFF_replicate (k : Nat) (xs : List Nat) :
    List.dropWhile (fun b => b == 255) (List.replicate k 255 ++ xs) =
      List.dropWhile (fun b => b == 255) xs := by
  induction k with
  | zero => simp
  | succ n ih =>
    simp only [List.replicate_succ, List.cons_append, List.dropWhile_cons]
    simp only [beq_self_eq_true, if_true]
    exact ih

theorem rstripFF_append_replicate (l : List Nat) (k : Nat) :
    rstripFF (l ++ List.replicate k 255) = rstripFF l := by
  unfold rstripFF
  rw [List.reverse_append, List.reverse_replicate, dropWhileFF_replicate]

theorem transform_firmware_schema1 (r : Region)
    (hrt : r.rtype = some RegionType.firmware) (hs : r.schema = some 1)
    (data : List Nat) : transform r data = rstripFF (data.drop 8) := by
  simp [transform, hrt, hs]

theorem transform_firmware_schema2 (r : Region)
    (hrt : r.rtype = some RegionType.firmware) (hs : r.schema = some 2)
    (data : List Nat) : transform r data = rstripFF (data.drop 4) := by
  simp [transform, hrt, hs]

/-! ### C3 — schema-2 canonical payload -/

/-- Demonstration schema-2 (`wifi firmware`) region. -/
def wifiDemoRegion : Region :=
  { name := "wifi firmware", offset := 0x6000,
    rtype := some RegionType.firmware, schema := some 2, pfx := some "NMID" }

/-- C3 counterexample: on the raw schema-2 payload `[0,0,0,0,5,9]` the
extractor emits `[5,9]` (drop 4 bytes, trim trailing `0xFF`), not the
claimed `[1,9]` (which would include the decrement of the first retained
byte by 4): the byte decrement is not part of the canonical payload. -/
theorem c3_counterexample :
    transform wifiDemoRegion [0, 0, 0, 0, 5, 9] = [5, 9] ∧
    transform wifiDemoRegion [0, 0, 0, 0, 5, 9] ≠ [1, 9] := by
  constructor <;> decide

/-- C3 (amended): for a schema-2 firmware region the canonical payload is
the raw payload with its first 4 bytes dropped and trailing `0xFF`
trimmed; the decrement of the first byte by 4 modulo 256 happens only at
verification time, on the comparison copy of the payload. -/
theorem c3_schema2_transform (r : Region)
    (hrt : r.rtype = some RegionType.firmware) (hs : r.schema = some 2) :
    (∀ data, transform r data = rstripFF (data.drop 4)) ∧
    (∀ b rest sd, verifyPart r (b :: rest) (some sd) =
      some (if (b + 252) % 256 :: rest = sd then VerifyResult.ok
            else VerifyResult.mismatch)) := by
  constructor
  · exact transform_firmware_schema2 r hrt hs
  · intro b rest sd
    simp [verifyPart, hrt, hs]

/-- C3 witness: the amended rules evaluated on `[0,0,0,0,5,9]` — the
extracted payload is `[5,9]`, and verification of `[5,9]` against the
reference `[1,9]` succeeds because of the verification-time decrement. -/
theorem c3_schema2_transform_witness :
    transform wifiDemoRegion [0, 0, 0, 0, 5, 9] = rstripFF [5, 9] ∧
    verifyPart wifiDemoRegion [5, 9] (some [1, 9]) = some VerifyResult.ok := by
  refine ⟨(c3_schema2_transform wifiDemoRegion rfl rfl).1 [0, 0, 0, 0, 5, 9], ?_⟩
  have h := (c3_schema2_transform wifiDemoRegion rfl rfl).2 5 [9] [1, 9]
  simp at h
  exact h

/-! ### C4 — Fixed and Certificate payloads -/

/-- The certificate region located in the 9-byte demonstration buffer
`30 82 00 05` followed by five zero bytes. -/
def demoCertRegion : Region :=
  { name := "certificate_0x0", offset := 0, size := some 9,
    rtype := some RegionType.certificate }

/-- C4 counterexample: the payload transform is not the identity for
Fixed or Certificate regions — trailing `0xFF` trimming is applied to
them too, so the `control sector` payload `[1, 255]` is emitted as `[1]`
and the certificate payload `[48, 130, 0, 1, 255]` as `[48, 130, 0, 1]`. -/
theorem c4_counterexample :
    transform controlRegion [1, 255] ≠ [1, 255] ∧
    transform demoCertRegion [48, 130, 0, 1, 255] ≠ [48, 130, 0, 1, 255] := by
  constructor <;> decide

/-- C4 (amended): for every region that is not a firmware region —
covering the Fixed anchors (no `'type'` key) and Certificate regions —
the transform applies no header drop, but it does trim trailing `0xFF`
bytes, the trim being applied uniformly to every region kind. -/
theorem c4_nonfirmware_transform (r : Region) (data : List Nat)
    (h : r.rtype ≠ some RegionType.firmware) :
    transform r data = rstripFF data := by
  simp [transform, h]

/-- C4 witness: the amended rule on the `control sector` fixed region and
the demonstration certificate region at concrete payloads. -/
theorem c4_nonfirmware_transform_witness :
    transform controlRegion [1, 255] = rstripFF [1, 255] ∧
    transform demoCertRegion [48, 130, 0, 1, 255] = rstripFF [48, 130, 0, 1, 255] :=
  ⟨c4_nonfirmware_transform controlRegion [1, 255] (by decide),
   c4_nonfirmware_transform demoCertRegion [48, 130, 0, 1, 255] (by decide)⟩

/-! ### C9 — schema-1 round trip -/

/-- C9: the schema-1 transform round-trips: prepending any 8-byte header
and appending any number of `0xFF` fill bytes to a schema-1 canonical
payload and re-running the transform reproduces the same payload. -/
theorem c9_schema1_roundtrip (r : Region)
    (hrt : r.rtype = some RegionType.firmware) (hs : r.schema = some 1)
    (raw hdr : List Nat) (k : Nat) (hh : hdr.length = 8) :
    transform r (hdr ++ transform r raw ++ List.replicate k 255) =
      transform r raw := by
  rw [transform_firmware_schema1 r hrt hs raw,
      transform_firmware_schema1 r hrt hs]
  have h3 : List.drop 8 (hdr ++ (rstripFF (List.drop 8 raw) ++ List.replicate k 255)) =
      rstripFF (List.drop 8 raw) ++ List.replicate k 255 := by
    rw [← hh]
    exact List.drop_left _ _
  rw [List.append_assoc, h3, rstripFF_append_replicate, rstripFF_idem]

/-- C9 witness: the round trip evaluated on the boot firmware region with
raw payload `[1,…,8,9,255]` (canonical payload `[9]`), an 8-byte header
of zeros and three `0xFF` fill bytes. -/
theorem c9_schema1_roundtrip_witness :
    transform bootRegion
        (List.replicate 8 0 ++ transform bootRegion [1, 2, 3, 4, 5, 6, 7, 8, 9, 255] ++
          List.replicate 3 255) =
      transform bootRegion [1, 2, 3, 4, 5, 6, 7, 8, 9, 255] :=
  c9_schema1_roundtrip bootRegion rfl rfl [1, 2, 3, 4, 5, 6, 7, 8, 9, 255]
    (List.replicate 8 0) 3 (by decide)

/-! ### Certificate-scan lemmas -/

/-- Facts holding for every region produced by the certificate scan
started at cursor `off`: it lies at or after the cursor, its four header
bytes are in bounds, its size is `4` plus the big-endian length read from
the two bytes after the tag, and it carries exactly the
certificate-region fields. -/
theorem certScan_mem {fw : List Nat} {e : Nat} :
    ∀ (fuel off : Nat) (cs : List Region), certScan fw e off fuel = some cs →
      ∀ r ∈ cs, off ≤ r.offset ∧ r.offset + 4 ≤ fw.length ∧
        r.size = some (4 + (256 * fw.getD (r.offset + 2) 0 + fw.getD (r.offset + 3) 0)) ∧
        r.rtype = some RegionType.certificate ∧ r.pfx = none ∧ r.schema = none := by
  intro fuel
  induction fuel with
  | zero => intro off cs h; exact Option.noConfusion h
  | succ n ih =>
    intro off cs h r hr
    rw [certScan] at h
    split at h
    · split at h
      · cases Option.some.inj h
        cases hr
      · rename_i f hfind
        split at h
        · rename_i hlen
          dsimp only at h
          split at h
          · exact Option.noConfusion h
          · rename_i rest hrec
            cases Option.some.inj h
            rcases List.mem_cons.mp hr with hhead | htail
            · subst hhead
              exact ⟨(bytesFind_some hfind).1, hlen, rfl, rfl, rfl, rfl⟩
            · have hrest := ih _ rest hrec r htail
              have h1 : off ≤ f := (bytesFind_some hfind).1
              exact ⟨by omega, hrest.2⟩
        · exact Option.noConfusion h
    · cases Option.some.inj h
      cases hr

/-- Consecutive certificate regions never overlap: the scan cursor
advances past each computed region end, so each next certificate starts
at or after the previous one's end. -/
theorem certScan_chain {fw : List Nat} {e : Nat} :
    ∀ (fuel off : Nat) (cs : List Region), certScan fw e off fuel = some cs →
      List.Chain' (fun a b => a.offset + a.size.getD 0 ≤ b.offset) cs := by
  intro fuel
  induction fuel with
  | zero => intro off cs h; exact Option.noConfusion h
  | succ n ih =>
    intro off cs h
    rw [certScan] at h
    split at h
    · split at h
      · cases Option.some.inj h
        exact List.chain'_nil
      · rename_i f hfind
        split at h
        · rename_i hlen
          dsimp only at h
          split at h
          · exact Option.noConfusion h
          · rename_i rest hrec
            cases Option.some.inj h
            refine List.chain'_cons'.mpr ⟨?_, ih _ rest hrec⟩
            intro y hy
            have hmem := certScan_mem n _ rest hrec y (List.mem_of_mem_head? hy)
            have h1 := hmem.1
            simp only [Option.getD_some]
            omega
        · exact Option.noConfusion h
    · cases Option.some.inj h
      exact List.chain'_nil

/-! ### C6 — DER certificate sizing -/

/-- C6: every certificate region's size is exactly `4 + length`, where
`length` is the big-endian 16-bit value of the two bytes following the
`30 82` tag; the scan cursor advances past each region's end, so no
certificate is found inside another; and on the buffer `30 82 00 05`
followed by five bytes the located region has size exactly 9. -/
theorem c6_certificate_sizing (fw : List Nat) (e fuel off : Nat)
    (cs : List Region) (h : certScan fw e off fuel = some cs) :
    (∀ r ∈ cs,
      r.size = some (4 + (256 * fw.getD (r.offset + 2) 0 + fw.getD (r.offset + 3) 0))) ∧
    List.Chain' (fun a b => a.offset + a.size.getD 0 ≤ b.offset) cs ∧
    certScan [0x30, 0x82, 0x00, 0x05, 0, 0, 0, 0, 0] 9 0 10 = some [demoCertRegion] := by
  refine ⟨fun r hr => (certScan_mem fuel off cs h r hr).2.2.1,
    certScan_chain fuel off cs h, by decide⟩

/-- C6 witness: the theorem applied to the demonstration buffer
`30 82 00 05` plus five zero bytes, whose single located certificate
region has size 9. -/
theorem c6_certificate_sizing_witness :
    (∀ r ∈ [demoCertRegion],
      r.size = some (4 + (256 * List.getD [0x30, 0x82, 0x00, 0x05, 0, 0, 0, 0, 0] (r.offset + 2) 0 +
        List.getD [0x30, 0x82, 0x00, 0x05, 0, 0, 0, 0, 0] (r.offset + 3) 0))) ∧
    List.Chain' (fun a b => a.offset + a.size.getD 0 ≤ b.offset) [demoCertRegion] ∧
    certScan [0x30, 0x82, 0x00, 0x05, 0, 0, 0, 0, 0] 9 0 10 = some [demoCertRegion] :=
  c6_certificate_sizing [0x30, 0x82, 0x00, 0x05, 0, 0, 0, 0, 0] 9 10 0
    [demoCertRegion] (by decide)

/-! ### Decomposition of the located region list -/

theorem findAllRegions_eq {fw : List Nat} {rs : List Region}
    (h : findAllRegions fw = some rs) :
    ∃ certs,
      certScan fw ((firmwareRegions fw).2.getD fw.length) 0 (fw.length + 1) = some certs ∧
      rs = List.insertionSort regionLE (fixedRegions ++ (firmwareRegions fw).1 ++ certs) := by
  unfold findAllRegions at h
  dsimp only at h
  split at h
  · exact Option.noConfusion h
  · rename_i certs hc
    exact ⟨certs, hc, (Option.some.inj h).symm⟩

/-! ### C10 — unconditional fixed regions -/

/-- C10: whatever the buffer contents, whenever `_find_all_regions`
completes, its region list contains the `boot firmware` region at offset
0 tagged firmware schema 1 with prefix `NMIS`, and the fixed anchors at
`0x1000`, `0x2000`, `0x3000` and `0x3400` — all appended before any
signature is looked for. -/
theorem c10_unconditional_fixed_regions (fw : List Nat) (rs : List Region)
    (h : findAllRegions fw = some rs) :
    bootRegion ∈ rs ∧ controlRegion ∈ rs ∧ backupRegion ∈ rs ∧
      pllRegion ∈ rs ∧ gainRegion ∈ rs ∧
      bootRegion.offset = 0 ∧ bootRegion.rtype = some RegionType.firmware ∧
      bootRegion.schema = some 1 ∧ bootRegion.pfx = some "NMIS" ∧
      controlRegion.offset = 0x1000 ∧ backupRegion.offset = 0x2000 ∧
      pllRegion.offset = 0x3000 ∧ gainRegion.offset = 0x3400 := by
  obtain ⟨certs, hc, rfl⟩ := findAllRegions_eq h
  refine ⟨?_, ?_, ?_, ?_, ?_, rfl, rfl, rfl, rfl, rfl, rfl, rfl, rfl⟩ <;>
    · rw [List.mem_insertionSort]
      simp [fixedRegions]

/-- C10 witness: on the empty buffer — which contains no `NMIS` magic at
all — the scan succeeds and the five fixed regions are all present. -/
theorem c10_unconditional_fixed_regions_witness :
    bytesFind [] nmis 0 0 = none ∧
    (bootRegion ∈ fixedRegions ∧ controlRegion ∈ fixedRegions ∧
      backupRegion ∈ fixedRegions ∧ pllRegion ∈ fixedRegions ∧
      gainRegion ∈ fixedRegions ∧
      bootRegion.offset = 0 ∧ bootRegion.rtype = some RegionType.firmware ∧
      bootRegion.schema = some 1 ∧ bootRegion.pfx = some "NMIS" ∧
      controlRegion.offset = 0x1000 ∧ backupRegion.offset = 0x2000 ∧
      pllRegion.offset = 0x3000 ∧ gainRegion.offset = 0x3400) :=
  ⟨by decide, c10_unconditional_fixed_regions [] fixedRegions (by decide)⟩

/-! ### C1 — missing firmware magic -/

/-- With no `NMID` occurrence, the magic scan records no wifi-firmware
offset and every magic-located region carries an `NMIS` or `FTMA`
prefix. -/
theorem firmwareRegions_no_nmid {fw : List Nat} (hn : findOcc fw nmid 0 0 = none) :
    (firmwareRegions fw).2 = none ∧
    ∀ r ∈ (firmwareRegions fw).1, r.pfx = some "NMIS" ∨ r.pfx = some "FTMA" := by
  unfold firmwareRegions
  rw [hn]
  refine ⟨rfl, ?_⟩
  intro r hr
  cases hdl : findOcc fw nmis 1 0 <;> rw [hdl] at hr <;>
    cases hate : findOcc fw ftma 0 0 <;> rw [hate] at hr <;>
      simp only [Option.map_some', Option.map_none', Option.toList_some,
        Option.toList_none, List.nil_append, List.append_nil, List.mem_append,
        List.mem_singleton, List.not_mem_nil, or_false, false_or] at hr
  · subst hr; exact Or.inr rfl
  · subst hr; exact Or.inl rfl
  · rcases hr with hr | hr
    · subst hr; exact Or.inl rfl
    · subst hr; exact Or.inr rfl

/-- C1 counterexample: a 16-byte all-zero buffer contains no `NMID`
magic, yet the decomposition run succeeds — no failure of any kind — and
still produces output files, including one for a firmware region
(`boot_firmware.bin`): a missing mandatory magic is silently skipped, not
fatal. -/
theorem c1_counterexample :
    bytesFind (List.replicate 16 0) nmid 0 16 = none ∧
    deconstruct (List.replicate 16 0) (fun _ => none) =
      some ([("boot_firmware.bin", List.replicate 8 0), ("control_sector.bin", []),
             ("backup_sector.bin", []), ("pll_table.bin", []),
             ("gain_table.bin", [])], false) := by
  constructor <;> decide

/-- C1 (amended): a missing `NMID` magic is not fatal and raises no
error: the wifi-firmware region is simply omitted from the located set
(every located region carries a different or no prefix), while the
unconditional boot-firmware region is still present and decomposition
proceeds with the remaining regions. -/
theorem c1_missing_magic_nonfatal (fw : List Nat) (rs : List Region)
    (hn : findOcc fw nmid 0 0 = none) (h : findAllRegions fw = some rs) :
    (∀ r ∈ rs, r.pfx ≠ some "NMID") ∧ bootRegion ∈ rs := by
  obtain ⟨certs, hc, rfl⟩ := findAllRegions_eq h
  constructor
  · intro r hr
    rw [List.mem_insertionSort] at hr
    rcases List.mem_append.mp hr with hr | hcert
    · rcases List.mem_append.mp hr with hfix | hfw
      · fin_cases hfix <;> decide
      · rcases (firmwareRegions_no_nmid hn).2 r hfw with hp | hp <;> rw [hp] <;> decide
    · have := (certScan_mem _ _ _ hc r hcert).2.2.2.2.1
      rw [this]
      exact fun hcontra => Option.noConfusion hcontra
  · rw [List.mem_insertionSort]
    exact List.mem_append.mpr (Or.inl (List.mem_append.mpr (Or.inl (by decide))))

/-- C1 witness: the amended theorem applied to the 16-byte all-zero
buffer, which has no `NMID` magic and still yields the five fixed
regions. -/
theorem c1_missing_magic_nonfatal_witness :
    (∀ r ∈ fixedRegions, r.pfx ≠ some "NMID") ∧ bootRegion ∈ fixedRegions :=
  c1_missing_magic_nonfatal (List.replicate 16 0) fixedRegions (by decide) (by decide)

/-! ### C2 — region tiling -/

/-- Claimed property, stated from the spec's words for comparison with
the code's behaviour: between any two consecutive sized regions there is
no gap — each region's extent ends exactly where the next region
starts. -/
def specGapFree : List (Region × Nat × Nat) → Bool
  | [] => true
  | [_] => true
  | x :: y :: rest => (x.2.2 == y.2.1) && specGapFree (y :: rest)

/-- What the sizer actually guarantees: an implicitly-sized region (no
explicit `size`) ends exactly at the next region's offset, and the last
one at end-of-image; explicitly-sized regions are exempt. -/
def implicitTiled (imgLen : Nat) : List (Region × Nat × Nat) → Prop
  | [] => True
  | [x] => x.1.size = none → x.2.2 = imgLen
  | x :: y :: rest => (x.1.size = none → x.2.2 = y.1.offset) ∧ implicitTiled imgLen (y :: rest)

theorem implicitTiled_extents (imgLen : Nat) :
    ∀ rs : List Region, implicitTiled imgLen (extents imgLen rs)
  | [] => trivial
  | [r] => by
    cases hs : r.size with
    | none => simp [extents, implicitTiled, hs]
    | some s => simp [extents, implicitTiled, hs]
  | r :: r2 :: rest => by
    constructor
    · cases hs : r.size with
      | none => simp [extents, hs]
      | some s => simp [extents, hs]
    · exact implicitTiled_extents imgLen (r2 :: rest)

/-- The 16-byte buffer holding a DER certificate header `30 82 00 01` at
offset 2 (content byte `0xAB`), used to exhibit a coverage gap. -/
def cbuf : List Nat :=
  [0, 0, 0x30, 0x82, 0x00, 0x01, 0xAB, 0, 0, 0, 0, 0, 0, 0, 0, 0]

/-- The region list located in `cbuf`. -/
def cbufRegions : List Region :=
  [bootRegion,
   { name := "certificate_0x2", offset := 2, size := some 5,
     rtype := some RegionType.certificate },
   controlRegion, backupRegion, pllRegion, gainRegion]

/-- C2 counterexample: on `cbuf` the sizer's output is not gap-free — the
explicitly-sized certificate at offset 2 ends at 7 while the next region
starts at `0x1000`, so the regions do not cover `[0, image_length)` with
no gap between consecutive regions. -/
theorem c2_counterexample :
    findAllRegions cbuf = some cbufRegions ∧
    specGapFree (extents cbuf.length cbufRegions) = false := by
  constructor <;> decide

/-- C2 (amended): the located region list is sorted by offset ascending,
and implicitly-sized regions tile: each region without an explicit size
extends exactly to the next region's offset, the last one to
end-of-image. Explicitly-sized regions (certificates) keep their
self-described size, which can leave a gap before (or overlap) the next
region, so full gap-free coverage of `[0, image_length)` does not hold in
general. -/
theorem c2_sorted_and_implicit_tiling (fw : List Nat) (rs : List Region)
    (h : findAllRegions fw = some rs) :
    List.Sorted regionLE rs ∧ implicitTiled fw.length (extents fw.length rs) := by
  obtain ⟨certs, hc, rfl⟩ := findAllRegions_eq h
  exact ⟨List.sorted_insertionSort regionLE _, implicitTiled_extents _ _⟩

/-- C2 witness: the amended theorem applied to the empty buffer, whose
located regions are exactly the five fixed regions. -/
theorem c2_sorted_and_implicit_tiling_witness :
    List.Sorted regionLE fixedRegions ∧
    implicitTiled (List.length ([] : List Nat)) (extents (List.length ([] : List Nat)) fixedRegions) :=
  c2_sorted_and_implicit_tiling [] fixedRegions (by decide)

/-! ### C5 — HttpEntry table parsing (spec-modelled) -/

theorem skipZeros_ge (win : List Nat) (pos : Nat) : pos ≤ skipZeros win pos := by
  unfold skipZeros
  exact Nat.le_add_right _ _

/-- Facts holding for every entry parsed from position `pos`: it starts
at or after `pos`, its content lies inside the window, its size is the
little-endian field just before the content, and its name is non-empty
and null-terminated within the fixed-width field. -/
theorem parseHttp_mem {nameW : Nat} {win : List Nat} :
    ∀ (fuel pos : Nat) (e : HttpEntry), e ∈ parseHttpWindow nameW win pos fuel →
      pos ≤ e.contentOff ∧ e.contentOff + e.size ≤ win.length ∧
      e.size = readLE32 win (e.contentOff - 4) ∧ e.name ≠ [] ∧ e.name.length < nameW := by
  intro fuel
  induction fuel with
  | zero => intro pos e he; cases he
  | succ n ih =>
    intro pos e he
    rw [parseHttpWindow] at he
    dsimp only at he
    split at he
    · rename_i hwin
      split at he
      · rename_i hname
        split at he
        · rename_i hsz
          rcases List.mem_cons.mp he with hhead | htail
          · subst hhead
            have hp0 := skipZeros_ge win pos
            refine ⟨show pos ≤ skipZeros win pos + nameW + 4 by omega, hsz, ?_,
              hname.2, hname.1⟩
            have h4 : skipZeros win pos + nameW + 4 - 4 = skipZeros win pos + nameW := by omega
            dsimp only
            rw [h4]
          · have h := ih _ e htail
            have hp0 := skipZeros_ge win pos
            exact ⟨by omega, h.2⟩
        · cases he
      · cases he
    · cases he

/-- Parsed entries are sequential: each entry's content ends at or before
the next entry's content starts. -/
theorem parseHttp_chain {nameW : Nat} {win : List Nat} :
    ∀ (fuel pos : Nat),
      List.Chain' (fun a b => a.contentOff + a.size ≤ b.contentOff)
        (parseHttpWindow nameW win pos fuel) := by
  intro fuel
  induction fuel with
  | zero => intro pos; rw [parseHttpWindow]; exact List.chain'_nil
  | succ n ih =>
    intro pos
    rw [parseHttpWindow]
    dsimp only
    split
    · split
      · split
        · refine List.chain'_cons'.mpr ⟨?_, ih _⟩
          intro y hy
          have h := parseHttp_mem n _ y (List.mem_of_mem_head? hy)
          have h1 := h.1
          dsimp only
          omega
        · exact List.chain'_nil
      · exact List.chain'_nil
    · exact List.chain'_nil

/-- Demonstration HttpEntry window: two bytes of zero fill, the
null-terminated name `[105, 46]` in a 4-byte name field, the
little-endian size field `3`, then three content bytes. -/
def demoWin : List Nat := [0, 0, 105, 46, 0, 0, 3, 0, 0, 0, 7, 8, 9]

/-- C5: every entry parsed from the window lies entirely inside it, its
size is the 4-byte little-endian field read just before its content, its
name is non-empty and null-terminated within the fixed-width name field;
entries are parsed sequentially without overlap; and an empty window
yields zero entries without error. -/
theorem c5_http_table_parsing (nameW : Nat) (win : List Nat) :
    (∀ e ∈ httpEntries nameW win,
      e.contentOff + e.size ≤ win.length ∧
      e.size = readLE32 win (e.contentOff - 4) ∧
      e.name ≠ [] ∧ e.name.length < nameW) ∧
    List.Chain' (fun a b => a.contentOff + a.size ≤ b.contentOff)
      (httpEntries nameW win) ∧
    httpEntries nameW [] = [] := by
  refine ⟨fun e he => ?_, parseHttp_chain _ _, ?_⟩
  · have h := parseHttp_mem _ _ e he
    exact h.2
  · rw [httpEntries]
    rw [parseHttpWindow]
    dsimp only
    have hz : skipZeros ([] : List Nat) 0 = 0 := rfl
    have hlen : List.length ([] : List Nat) = 0 := rfl
    rw [if_neg (by rw [hz, hlen]; omega)]

/-- C5 witness: the theorem evaluated on `demoWin` with a 4-byte name
field, whose single parsed entry is `[105, 46]` with content at offset 10
and size 3. -/
theorem c5_http_table_parsing_witness :
    (HttpEntry.mk [105, 46] 10 3).contentOff + (HttpEntry.mk [105, 46] 10 3).size ≤
        demoWin.length ∧
    (HttpEntry.mk [105, 46] 10 3).size =
      readLE32 demoWin ((HttpEntry.mk [105, 46] 10 3).contentOff - 4) ∧
    (HttpEntry.mk [105, 46] 10 3).name ≠ [] ∧
    (HttpEntry.mk [105, 46] 10 3).name.length < 4 :=
  (c5_http_table_parsing 4 demoWin).1 (HttpEntry.mk [105, 46] 10 3) (by decide)

/-! ### C7 — verifier comparison rules -/

/-- C7 counterexample: schema-1 is not the only exception to exact byte
comparison — for the schema-2 wifi firmware region, a canonical payload
byte-identical to the reference (`[5]` vs `[5]`) is reported as a
mismatch, because the payload's first byte is patched before comparing. -/
theorem c7_counterexample :
    verifyPart wifiDemoRegion [5] (some [5]) = some VerifyResult.mismatch := by
  decide

/-- C7 (amended): the verifier compares for exact byte equality with two
exceptions: for schema-1 firmware the reference first loses its own 4
leading bytes, and for schema-2 firmware the payload's first byte is
decremented by 4 modulo 256 before the comparison; in particular a
schema-1 reference that equals the canonical payload with 4 extra leading
bytes verifies successfully. -/
theorem c7_verifier_rules :
    (∀ (r : Region) (data sd : List Nat),
      r.rtype = some RegionType.firmware → r.schema = some 1 →
      verifyPart r data (some sd) =
        some (if data = sd.drop 4 then VerifyResult.ok else VerifyResult.mismatch)) ∧
    (∀ (r : Region) (b : Nat) (rest sd : List Nat),
      r.rtype = some RegionType.firmware → r.schema = some 2 →
      verifyPart r (b :: rest) (some sd) =
        some (if (b + 252) % 256 :: rest = sd then VerifyResult.ok
              else VerifyResult.mismatch)) ∧
    (∀ (r : Region) (data sd : List Nat), r.rtype ≠ some RegionType.firmware →
      verifyPart r data (some sd) =
        some (if data = sd then VerifyResult.ok else VerifyResult.mismatch)) ∧
    (∀ (r : Region) (data hdr : List Nat),
      r.rtype = some RegionType.firmware → r.schema = some 1 → hdr.length = 4 →
      verifyPart r data (some (hdr ++ data)) = some VerifyResult.ok) := by
  refine ⟨?_, ?_, ?_, ?_⟩
  · intro r data sd hrt hs
    simp [verifyPart, hrt, hs]
  · intro r b rest sd hrt hs
    simp [verifyPart, hrt, hs]
  · intro r data sd hrt
    simp [verifyPart, hrt]
  · intro r data hdr hrt hs hh
    have hd : List.drop 4 (hdr ++ data) = data := by
      rw [← hh]
      exact List.drop_left _ _
    simp [verifyPart, hrt, hs, hd]

/-- C7 witness: the four rules evaluated at concrete inputs — a schema-1
comparison against a 4-byte-extended reference succeeds, a schema-2
comparison applies the byte patch, and a fixed region compares exactly. -/
theorem c7_verifier_rules_witness :
    verifyPart bootRegion [7, 8] (some [1, 2, 3, 4, 7, 8]) = some VerifyResult.ok ∧
    verifyPart wifiDemoRegion [6, 2] (some [2, 2]) = some VerifyResult.ok ∧
    verifyPart controlRegion [3] (some [3]) = some VerifyResult.ok ∧
    verifyPart bootRegion [9] (some ([0, 0, 0, 0] ++ [9])) = some VerifyResult.ok := by
  refine ⟨?_, ?_, ?_, ?_⟩
  · have h := c7_verifier_rules.1 bootRegion [7, 8] [1, 2, 3, 4, 7, 8] rfl rfl
    simpa using h
  · have h := c7_verifier_rules.2.1 wifiDemoRegion 6 [2] [2, 2] rfl rfl
    simpa using h
  · have h := c7_verifier_rules.2.2.1 controlRegion [3] [3] (by decide)
    simpa using h
  · exact c7_verifier_rules.2.2.2 bootRegion [9] [0, 0, 0, 0] rfl rfl (by decide)

/-! ### C8 — mismatch handling -/

/-- C8 counterexample: in the deconstructor a verification mismatch is
fatal, not reported-and-continue: on the 16-byte zero buffer with a
mismatching source for `boot firmware`, the run stops after the first
region (halt flag `true`) — none of the five remaining located regions
is extracted, and there is no configuration that could change this. -/
theorem c8_counterexample :
    deconstruct (List.replicate 16 0)
        (fun n => if n = "boot firmware" then some [9, 9, 9, 9, 9] else none) =
      some ([("boot_firmware.bin", List.replicate 8 0)], true) := by
  decide

/-- The demonstration dump for `extract_final.py`: the `NMIS` magic
followed by eight zero bytes. -/
def fwDemo : List Nat := nmis ++ List.replicate 8 0

/-- Demonstration source lookup: a source part for `extract_final.py`
under `boot_firmware.bin` and a mismatching reference for the
deconstructor's `boot firmware` region. -/
def srcDemo : String → Option (List Nat) := fun n =>
  if n = "boot_firmware.bin" then some [1, 2, 3, 4, 5]
  else if n = "boot firmware" then some [9] else none

/-- C8 (amended): in `FirmwareDeconstructor` a verification mismatch
always halts the run (`exit(1)`) right after the mismatching region's
file is written, so no subsequent region is extracted; in
`extract_final.py`, by contrast, each part's outcome is independent of
the others — a part that parses is in the output list regardless of any
mismatch elsewhere, and a mismatch only flags the part, never stops the
loop. Neither behaviour is configurable. -/
theorem c8_mismatch_halts (fw : List Nat) (src : String → Option (List Nat))
    (r : Region) (s e : Nat) (rest : List (Region × Nat × Nat))
    (hm : verifyPart r (transform r (pySlice fw s e)) (src r.name) =
      some VerifyResult.mismatch) :
    runExtract fw src ((r, s, e) :: rest) =
      some ([(fileName r, transform r (pySlice fw s e))], true) ∧
    ∀ p o, p ∈ finalParts → processPart fw src p = some o →
      o ∈ extractFinal fw src := by
  constructor
  · rw [runExtract]
    rw [hm]
  · intro p o hp hpo
    exact List.mem_filterMap.mpr ⟨p, hp, hpo⟩

/-- C8 witness: on `fwDemo`/`srcDemo` the deconstructor's extraction loop
halts at the mismatching boot region with only that one file written,
while `extract_final.py` keeps the `boot_firmware.bin` part in its output
even though that very part failed verification (flag `false`). -/
theorem c8_mismatch_halts_witness :
    runExtract fwDemo srcDemo [(bootRegion, 0, 4096)] =
      some ([(fileName bootRegion, transform bootRegion (pySlice fwDemo 0 4096))], true) ∧
    ("boot_firmware.bin", [1, 2, 3, 4, 0], false) ∈ extractFinal fwDemo srcDemo := by
  have h := c8_mismatch_halts fwDemo srcDemo bootRegion 0 4096 [] (by decide)
  exact ⟨h.1, h.2 ("boot_firmware.bin", nmis)
    ("boot_firmware.bin", [1, 2, 3, 4, 0], false) (by decide) (by decide)⟩

end Winc
